import Mathlib

/-!
Verification of the Clip-Data-Bot analytics extraction engine
(`discord_bot.py`): a shallow embedding of its numeric-token
normalizers, the three format extractors (TikTok OCR text, Instagram
two-screen OCR text, YouTube CSV rows) and the per-thread submission
state machine, together with theorems settling the specification's
claims about them.

Strings are modelled over `List Char`; Python floats are modelled
exactly as rationals rounded to IEEE-754 binary64 by round-to-nearest,
ties-to-even (CPython's `float(str)` is correctly rounded, and the only
products taken are float-by-int, which are exact rational products then
rounded once).  ASCII is assumed for digits and case folding, which
covers every input the claims mention.
-/

set_option maxRecDepth 40000

unseal Rat.mul Rat.add Rat.sub Rat.inv

namespace ClipBot

/-- Python's whitespace set (`str.strip`, `str.isspace`, regex `\s`):
ASCII 0x09-0x0d, space, 0x1c-0x1f, 0x85, 0xa0 and the Unicode space
code points. -/
def pySpace (c : Char) : Bool :=
  let n := c.toNat
  (9 ≤ n && n ≤ 13) || n == 32 || (28 ≤ n && n ≤ 31) || n == 133 || n == 160 ||
  n == 5760 || (8192 ≤ n && n ≤ 8202) || n == 8232 || n == 8233 ||
  n == 8239 || n == 8287 || n == 12288

/-- An ASCII digit (regex `\d` on the bot's ASCII inputs, and the
digits accepted by `float`/`int`). -/
def isDig (c : Char) : Bool := 48 ≤ c.toNat && c.toNat ≤ 57

/-- ASCII lower-casing of one character (models `str.lower` on the
ASCII inputs used by the bot's keyword checks). -/
def lowChar (c : Char) : Char :=
  if 'A' ≤ c && c ≤ 'Z' then Char.ofNat (c.toNat + 32) else c

/-- Case-sensitive "starts with" on character lists. -/
def startsL : List Char → List Char → Bool
  | _, [] => true
  | [], _ :: _ => false
  | a :: as, b :: bs => (a == b) && startsL as bs

/-- Case-insensitive "starts with"; the pattern is given lower-cased. -/
def ciStarts : List Char → List Char → Bool
  | _, [] => true
  | [], _ :: _ => false
  | a :: as, b :: bs => (lowChar a == b) && ciStarts as bs

/-- Python's substring test `pat in hay` (case-sensitive). -/
def subL : List Char → List Char → Bool
  | [], pat => startsL [] pat
  | c :: t, pat => startsL (c :: t) pat || subL t pat

/-- Python `sub in s` on strings. -/
def strIn (s sub : String) : Bool := subL s.data sub.data

/-- Skip a run of whitespace (`\s*` consuming maximally, which is
forced whenever the next pattern element cannot match whitespace). -/
def skipWs (cs : List Char) : List Char := cs.dropWhile pySpace

/-- Python `str.strip()`. -/
def stripL (cs : List Char) : List Char :=
  ((cs.dropWhile pySpace).reverse.dropWhile pySpace).reverse

/-- Maximal run of ASCII digits at the front of the list. -/
def takeDigits (cs : List Char) : List Char := cs.takeWhile (fun c => isDig c)

/-! ## Exact model of CPython floats -/

/-- A CPython float value: a finite (dyadic rational) value, an
infinity, or NaN. -/
inductive PyFloat
  | finite (q : ℚ)
  | inf
  | ninf
  | nan
deriving DecidableEq, Repr

/-- Floor of a rational as an integer. -/
def qfloor (q : ℚ) : ℤ := q.num.fdiv (q.den : ℤ)

/-- Ceiling of a rational as an integer. -/
def qceil (q : ℚ) : ℤ := -qfloor (-q)

/-- Round a nonnegative rational to an integer, ties to even. -/
def rne (x : ℚ) : ℤ :=
  if x - (qfloor x : ℚ) < 1/2 then qfloor x
  else if 1/2 < x - (qfloor x : ℚ) then qfloor x + 1
  else if qfloor x % 2 = 0 then qfloor x else qfloor x + 1

/-- Fuel-bounded floor of log2 on naturals (`lgAux f n` is exact for
`n < 2 ^ f`; the fuel used below always suffices for the IEEE range). -/
def lgAux : ℕ → ℕ → ℕ
  | 0, _ => 0
  | f + 1, n => if n ≤ 1 then 0 else lgAux f (n / 2) + 1

/-- Fuel-bounded ceiling of log2 on naturals. -/
def clgAux : ℕ → ℕ → ℕ
  | 0, _ => 0
  | f + 1, n => if n ≤ 1 then 0 else clgAux f ((n + 1) / 2) + 1

/-- Floor of log2 of a positive rational.  Exact on `[2 ^ -3000, 2 ^ 3000)`;
below that range it still returns a value ≤ -1022, which is all the
binary64 rounder needs (the scale is clamped to the subnormal scale). -/
def log2floorQ (a : ℚ) : ℤ :=
  if 1 ≤ a then (lgAux 3000 (qfloor a).toNat : ℤ)
  else -(clgAux 3000 (qceil a⁻¹).toNat : ℤ)

/-- `2 ^ k` as a rational, for an integer `k`. -/
def pow2z (k : ℤ) : ℚ :=
  if 0 ≤ k then ((2 ^ k.toNat : ℕ) : ℚ) else (((2 ^ (-k).toNat : ℕ) : ℚ))⁻¹

/-- `10 ^ n` as a rational. -/
def pow10n (n : ℕ) : ℚ := ((10 ^ n : ℕ) : ℚ)

/-- `10 ^ e` as a rational, for an integer `e`. -/
def pow10z (e : ℤ) : ℚ :=
  if 0 ≤ e then pow10n e.toNat else (pow10n (-e).toNat)⁻¹

/-- Overflow threshold of binary64: exact values of at least
`2 ^ 1024 - 2 ^ 970` round to infinity under ties-to-even. -/
def dblThr : ℚ := ((2 ^ 1024 - 2 ^ 970 : ℕ) : ℚ)

/-- The scale exponent of the binary64 grid around `|q|`: normal
spacing `2 ^ (e - 52)`, clamped below at the subnormal spacing
`2 ^ -1074`. -/
def roundScale (q : ℚ) : ℤ := max (log2floorQ |q| - 52) (-1074)

/-- The magnitude of `|q|` rounded onto the binary64 grid. -/
def roundMag (q : ℚ) : ℚ :=
  (rne (|q| / pow2z (roundScale q)) : ℚ) * pow2z (roundScale q)

/-- Round an exact rational to the nearest binary64 value
(round-to-nearest, ties-to-even), the rounding CPython applies both
when parsing a decimal literal and when multiplying floats. -/
def roundDouble (q : ℚ) : PyFloat :=
  if q = 0 then .finite 0
  else if dblThr ≤ |q| then (if q < 0 then .ninf else .inf)
  else .finite (if q < 0 then -roundMag q else roundMag q)

/-- Multiply a CPython float by a positive int multiplier.  For
multiplier 1 the IEEE product is the value itself; otherwise the int is
converted exactly and the exact product is rounded once. -/
def pyMulN (f : PyFloat) (m : ℕ) : PyFloat :=
  match f with
  | .finite q => if m = 1 then .finite q else roundDouble (q * (m : ℚ))
  | .inf => .inf
  | .ninf => .ninf
  | .nan => .nan

/-- Truncation toward zero: Python's `int(float)` on finite values. -/
def ratTrunc (q : ℚ) : ℤ := if q < 0 then -qfloor (-q) else qfloor q

/-! ### The grammar of `float(str)` (PEP 515 underscores included) -/

/-- Digit run with single underscores between digits: returns the
accumulated value, number of digits, and the rest of the input. -/
def udLoop : ℕ → ℕ → List Char → ℕ × ℕ × List Char
  | v, n, [] => (v, n, [])
  | v, n, c :: rest =>
    if isDig c then udLoop (10 * v + (c.toNat - 48)) (n + 1) rest
    else if c == '_' then
      match rest with
      | d :: rest2 =>
        if isDig d then udLoop (10 * v + (d.toNat - 48)) (n + 1) rest2
        else (v, n, c :: rest)
      | [] => (v, n, [c])
    else (v, n, c :: rest)

/-- A `digitpart`: one digit, then digits with optional single
underscores between them.  Fails when the input does not start with a
digit. -/
def parseUDigits (cs : List Char) : Option (ℕ × ℕ × List Char) :=
  match cs with
  | c :: rest => if isDig c then some (udLoop (c.toNat - 48) 1 rest) else none
  | [] => none

/-- Optional exponent part `("e"|"E") [sign] digitpart`; if an `e` is
present but malformed the whole parse fails. -/
def parseExpTail (cs : List Char) : Option (ℤ × List Char) :=
  match cs with
  | c :: rest =>
    if c == 'e' || c == 'E' then
      match rest with
      | s :: rest2 =>
        if s == '+' then (parseUDigits rest2).map (fun t => ((t.1 : ℤ), t.2.2))
        else if s == '-' then (parseUDigits rest2).map (fun t => (-(t.1 : ℤ), t.2.2))
        else (parseUDigits rest).map (fun t => ((t.1 : ℤ), t.2.2))
      | [] => none
    else some (0, cs)
  | [] => some (0, [])

/-- The numeric body of a float literal after the sign:
`digitpart ["." [digitpart]] [exp]` or `"." digitpart [exp]`,
evaluated exactly as a rational. -/
def parseNumericQ (cs : List Char) : Option (ℚ × List Char) :=
  match cs with
  | '.' :: rest =>
    match parseUDigits rest with
    | some (fv, fn, r) =>
      match parseExpTail r with
      | some (e, r2) => some (((fv : ℚ) / pow10n fn) * pow10z e, r2)
      | none => none
    | none => none
  | _ =>
    match parseUDigits cs with
    | some (iv, _, r) =>
      match r with
      | '.' :: r2 =>
        match parseUDigits r2 with
        | some (fv, fn, r3) =>
          match parseExpTail r3 with
          | some (e, r4) => some (((iv : ℚ) + (fv : ℚ) / pow10n fn) * pow10z e, r4)
          | none => none
        | none =>
          match parseExpTail r2 with
          | some (e, r4) => some ((iv : ℚ) * pow10z e, r4)
          | none => none
      | _ =>
        match parseExpTail r with
        | some (e, r4) => some ((iv : ℚ) * pow10z e, r4)
        | none => none
    | none => none

/-- Keyword token followed only by trailing whitespace. -/
def matchKw (cs kw : List Char) : Bool :=
  ciStarts cs kw && (cs.drop kw.length).all pySpace

/-- The body of `float(str)` after the optional sign: the keyword
tokens `inf`/`infinity`/`nan` (case-insensitive, trailing whitespace
allowed) or a numeric literal, correctly rounded to binary64 with huge
values overflowing to infinity.  `none` models `ValueError`. -/
def pyFloatSigned (neg : Bool) (cs1 : List Char) : Option PyFloat :=
  if matchKw cs1 ['i', 'n', 'f', 'i', 'n', 'i', 't', 'y'] then
    some (if neg then .ninf else .inf)
  else if matchKw cs1 ['i', 'n', 'f'] then some (if neg then .ninf else .inf)
  else if matchKw cs1 ['n', 'a', 'n'] then some .nan
  else
    match parseNumericQ cs1 with
    | some (q, r) =>
      if r.all pySpace then some (roundDouble (if neg then -q else q)) else none
    | none => none

/-- CPython `float(str)`: optional surrounding whitespace, an optional
sign, then the signed body. -/
def pyFloatOfList (cs0 : List Char) : Option PyFloat :=
  match cs0.dropWhile pySpace with
  | '+' :: r => pyFloatSigned false r
  | '-' :: r => pyFloatSigned true r
  | r => pyFloatSigned false r

/-! ## The two `parse_number` normalizers -/

/-- Whether a period at the current position is kept: the lookahead
`(?=\.\d|.[KM])` succeeds exactly when the next character is a digit,
`K` or `M`. -/
def strayKeep (rest : List Char) : Bool :=
  match rest with
  | d :: _ => isDig d || d == 'K' || d == 'M'
  | [] => false

/-- The period filter of the TikTok normalizer,
`re.sub(r'(?!\.\d|.[KM])\.', '', s)`: a period is kept exactly when the
next character is a digit, `K` or `M` (the lookahead is evaluated on
the unmodified string and each match is a single period). -/
def strayDots : List Char → List Char
  | [] => []
  | c :: rest =>
    if c == '.' then
      (if strayKeep rest then '.' :: strayDots rest else strayDots rest)
    else c :: strayDots rest

/-- `parse_number` as defined inside `process_tiktok_photo`
(discord_bot.py lines 119-140): strip, drop commas, drop stray periods,
strip a trailing `K`/`M` into a multiplier, then `int(float(s) * mult)`.
`some n` is a returned int (a `ValueError` anywhere returns `some 0`);
`none` is an uncaught `OverflowError` from `int(...)` on an infinite
float.  `tiktokMunged` and `tiktokResidue` form the string-munging
prefix: strip, drop commas, drop stray periods, split off the `K`/`M`
multiplier. -/
def tiktokMunged (cs : List Char) : List Char :=
  strayDots ((stripL cs).filter (fun c => c != ','))

/-- The residue handed to `float` and the multiplier from a trailing
`K`/`M`; see `tiktokMunged`. -/
def tiktokResidue (cs : List Char) : List Char × ℕ :=
  match (tiktokMunged cs).getLast? with
  | some 'K' => ((tiktokMunged cs).dropLast, 1000)
  | some 'M' => ((tiktokMunged cs).dropLast, 1000000)
  | _ => (tiktokMunged cs, 1)

/-- The numeric conversion `int(float(s) * multiplier)` applied to the
munged residue; see `tiktokResidue`. -/
def tiktokParseNumL (cs : List Char) : Option ℤ :=
  let km := tiktokResidue cs
  match pyFloatOfList km.1 with
  | none => some 0
  | some .nan => some 0
  | some .inf => none
  | some .ninf => none
  | some (.finite q) =>
    match pyMulN (.finite q) km.2 with
    | .finite p => some (ratTrunc p)
    | .nan => some 0
    | _ => none

/-- `parse_number` as defined inside `process_instagram_photos`
(discord_bot.py lines 202-209): strip, drop commas, drop the maximal
trailing run of characters that are neither digits nor periods
(`re.sub(r'[^\d\.]+$', '', s)`), then `int(float(s))`.  Same
`none`/`some` convention as the TikTok normalizer. -/
def instaParseNumL (cs : List Char) : Option ℤ :=
  let s1 := stripL cs
  let s2 := s1.filter (fun c => c != ',')
  let s3 := (s2.reverse.dropWhile (fun c => !(isDig c || c == '.'))).reverse
  match pyFloatOfList s3 with
  | none => some 0
  | some .nan => some 0
  | some .inf => none
  | some .ninf => none
  | some (.finite q) => some (ratTrunc q)

/-- The TikTok extractor's normalizer on strings. -/
def tiktokParseNumber (s : String) : Option ℤ := tiktokParseNumL s.data

/-- The Instagram extractor's normalizer on strings. -/
def instaParseNumber (s : String) : Option ℤ := instaParseNumL s.data

/-! ## The TikTok extractor (`process_tiktok_photo`)

Each `re.search` call of the source is translated into a dedicated
scanner with Python's leftmost-match and greedy/lazy backtracking
semantics for that particular pattern. -/

/-- The character class `[\d\.,]`. -/
def isNumTok (c : Char) : Bool := isDig c || c == '.' || c == ','

/-- A contiguous whitespace run containing at least one newline starts
here: exactly the strings `\s*\n\s*` can consume when the following
pattern element cannot match whitespace. -/
def wsRunHasNl : List Char → Bool
  | [] => false
  | c :: rest => c == '\n' || (pySpace c && wsRunHasNl rest)

/-- The optional magnitude suffix `[KM]?` (greedy, case-sensitive). -/
def kmOpt : List Char → List Char
  | 'K' :: _ => ['K']
  | 'M' :: _ => ['M']
  | _ => []

/-- Capture of `([\d\.,]+[KM]?)` anchored at the current position:
the maximal numeric-token run (which must be nonempty) plus an optional
trailing `K`/`M`. -/
def numCapture (r : List Char) : Option (List Char) :=
  let ds := r.takeWhile isNumTok
  if ds.isEmpty then none else some (ds ++ kmOpt (r.drop ds.length))

/-- Tail `\s*\n\s*([\d\.,]+[KM]?)` of the Post-views pattern. -/
def pvTail (r : List Char) : Option (List Char) :=
  if wsRunHasNl r then numCapture (skipWs r) else none

/-- Find the first `Profile views` (case-insensitive) whose tail
matches — the continuation of the lazy `.*?` gap. -/
def pvAfter : List Char → Option (List Char)
  | [] => none
  | c :: rest =>
    if ciStarts (c :: rest) "profile views".data then
      match pvTail ((c :: rest).drop 13) with
      | some ds => some ds
      | none => pvAfter rest
    else pvAfter rest

/-- `re.search(r'Post views.*?Profile views\s*\n\s*([\d\.,]+[KM]?)',
text, re.IGNORECASE | re.DOTALL)`: group 1 of the leftmost match. -/
def pvGo : List Char → Option (List Char)
  | [] => none
  | c :: rest =>
    if ciStarts (c :: rest) "post views".data then
      match pvAfter ((c :: rest).drop 10) with
      | some ds => some ds
      | none => pvGo rest
    else pvGo rest

/-- Tail `\s*\n\s*([\d\.,]+[KM]?)\s*([\d\.,]+[KM]?)` of the
Likes/Comments pattern, with the regex engine's backtracking: group 1
greedily takes the numeric run and suffix, giving back first the
suffix and then one run character when group 2 (which needs at least
one class character) would otherwise be empty. -/
def lcTail (r : List Char) : Option (List Char × List Char) :=
  if wsRunHasNl r then
    let r2 := skipWs r
    let ds := r2.takeWhile isNumTok
    if ds.isEmpty then none
    else
      let lastd := (ds.getLast?).getD '0'
      match r2.drop ds.length with
      | 'K' :: a2 =>
        match numCapture (skipWs a2) with
        | some c2 => some (ds ++ ['K'], c2)
        | none => if 2 ≤ ds.length then some (ds.dropLast, [lastd, 'K']) else none
      | 'M' :: a2 =>
        match numCapture (skipWs a2) with
        | some c2 => some (ds ++ ['M'], c2)
        | none => if 2 ≤ ds.length then some (ds.dropLast, [lastd, 'M']) else none
      | after =>
        match numCapture (skipWs after) with
        | some c2 => some (ds, c2)
        | none => if 2 ≤ ds.length then some (ds.dropLast, [lastd]) else none
  else none

/-- Continuation of the lazy gap in the Likes/Comments pattern. -/
def lcAfter : List Char → Option (List Char × List Char)
  | [] => none
  | c :: rest =>
    if ciStarts (c :: rest) "comments".data then
      match lcTail ((c :: rest).drop 8) with
      | some p => some p
      | none => lcAfter rest
    else lcAfter rest

/-- `re.search(r'Likes.*?Comments\s*\n\s*([\d\.,]+[KM]?)\s*([\d\.,]+[KM]?)',
text, re.IGNORECASE | re.DOTALL)`: groups 1 and 2 of the leftmost
match. -/
def lcGo : List Char → Option (List Char × List Char)
  | [] => none
  | c :: rest =>
    if ciStarts (c :: rest) "likes".data then
      match lcAfter ((c :: rest).drop 5) with
      | some p => some p
      | none => lcGo rest
    else lcGo rest

/-- Continuation of the lazy gap in the Shares pattern: the first
newline after which (skipping whitespace) a numeric token starts. -/
def shAfter : List Char → Option (List Char)
  | [] => none
  | c :: rest =>
    if c == '\n' then
      match numCapture (skipWs rest) with
      | some ds => some ds
      | none => shAfter rest
    else shAfter rest

/-- `re.search(r'Shares.*?\n\s*([\d\.,]+[KM]?)', text,
re.IGNORECASE | re.DOTALL)`: group 1 of the leftmost match. -/
def shGo : List Char → Option (List Char)
  | [] => none
  | c :: rest =>
    if ciStarts (c :: rest) "shares".data then
      match shAfter ((c :: rest).drop 6) with
      | some ds => some ds
      | none => shGo rest
    else shGo rest

/-- The extracted metrics record. -/
structure Metrics where
  views : ℤ
  likes : ℤ
  comments : ℤ
  shares : ℤ
deriving DecidableEq, Repr

/-- The metric-extraction part of `process_tiktok_photo` (lines
142-159) applied to the OCR text: each anchor pattern is searched, its
captured token normalized, a missing anchor giving `0`.  `none` models
an uncaught exception escaping the handler. -/
def tiktokProcess (text : String) : Option Metrics := do
  let v ← match pvGo text.data with
    | some ds => tiktokParseNumL ds
    | none => pure 0
  let lc := lcGo text.data
  let l ← match lc with
    | some p => tiktokParseNumL p.1
    | none => pure 0
  let c ← match lc with
    | some p => tiktokParseNumL p.2
    | none => pure 0
  let s ← match shGo text.data with
    | some ds => tiktokParseNumL ds
    | none => pure 0
  pure ⟨v, l, c, s⟩

/-! ## The Instagram extractor (`process_instagram_photos`) -/

/-- Existence of a match of `Views\s*\n*\s*(\d{3,})` (IGNORECASE,
DOTALL): `views`, a whitespace run, then at least three digits. -/
def viewsNlDigits : List Char → Bool
  | [] => false
  | c :: rest =>
    (ciStarts (c :: rest) "views".data &&
      (match skipWs ((c :: rest).drop 5) with
       | a :: b :: d :: _ => isDig a && isDig b && isDig d
       | _ => false)) ||
    viewsNlDigits rest

/-- Existence of a match of `(\d{3,})\s*Views` (IGNORECASE): three
digits, then only whitespace until `views`. -/
def digitsWsViews : List Char → Bool
  | a :: b :: c :: rest =>
    (isDig a && isDig b && isDig c && ciStarts (skipWs rest) "views".data) ||
    digitsWsViews (b :: c :: rest)
  | _ => false

/-- The views-screen heuristic (first classification test of
`process_instagram_photos`, lines 181 and 184). -/
def igA (t : String) : Bool := viewsNlDigits t.data || digitsWsViews t.data

/-- The interactions-screen fallback: `'Likes' in t and 'Comments' in t
and 'Views' not in t` (case-sensitive, lines 189 and 192). -/
def igB (t : String) : Bool :=
  strIn t "Likes" && strIn t "Comments" && !(strIn t "Views")

/-- `re.search(label + r'\s*(\d+)', text, re.IGNORECASE | re.DOTALL)`:
group 1 of the leftmost match; a label occurrence not followed (after
whitespace) by a digit is skipped, as the engine keeps scanning. -/
def labelNum (pat : List Char) : List Char → Option (List Char)
  | [] => none
  | c :: rest =>
    if ciStarts (c :: rest) pat then
      let r := skipWs ((c :: rest).drop pat.length)
      let ds := takeDigits r
      if ds.isEmpty then labelNum pat rest else some ds
    else labelNum pat rest

/-- Tail of views priority 1: a whitespace run containing a newline,
then `views`. -/
def pri1Tail (r : List Char) : Bool :=
  wsRunHasNl r && ciStarts (skipWs r) "views".data

/-- `re.search(r'(\d{4,})\s*\n\s*Views', ...)`: the leftmost digit run
of length at least 4 followed by a newline-containing whitespace run
and `views`.  The boolean argument tracks whether the previous
character was a digit (starts inside a run cannot win). -/
def pri1Go : Bool → List Char → Option (List Char)
  | _, [] => none
  | prev, c :: rest =>
    if !prev && isDig c then
      let ds := takeDigits (c :: rest)
      if 4 ≤ ds.length && pri1Tail ((c :: rest).drop ds.length) then some ds
      else pri1Go true rest
    else pri1Go (isDig c) rest

/-- Length consumed by the maximal run of `(?:,\d{3})*` groups. -/
def chainLen : List Char → ℕ
  | ',' :: a :: b :: c :: rest =>
    if isDig a && isDig b && isDig c then 4 + chainLen rest else 0
  | _ => 0

/-- One anchored attempt of `(\d{1,3}(?:,\d{3})*)\s*Views`: the digit
run here must have length 1-3 (a longer run leaves a digit after the
group, which can match neither `\s*` nor `Views`), then comma groups,
whitespace, `views`. -/
def pri2Try (cs : List Char) : Option (List Char) :=
  let L := (takeDigits cs).length
  if 1 ≤ L && L ≤ 3 then
    let total := L + chainLen (cs.drop L)
    if ciStarts (skipWs (cs.drop total)) "views".data then some (cs.take total)
    else none
  else none

/-- `re.search(r'(\d{1,3}(?:,\d{3})*)\s*Views', text, re.IGNORECASE)`:
group 1 of the leftmost match (every start position is tried). -/
def pri2Go : List Char → Option (List Char)
  | [] => none
  | c :: rest =>
    match pri2Try (c :: rest) with
    | some ds => some ds
    | none => pri2Go rest

/-- After the digits of views fallback 3, `\s*$` (MULTILINE): only
whitespace up to the end of the string or up to some newline. -/
def tailLineOk : List Char → Bool
  | [] => true
  | c :: rest => c == '\n' || (pySpace c && tailLineOk rest)

/-- `re.search(r'^\s*(\d{3,5})\s*$', text, re.MULTILINE)`: a digit run
of length 3-5 preceded by whitespace from a line anchor (string start
or a newline, tracked by the boolean) and followed by whitespace to a
newline or the end. -/
def fb3Go : Bool → List Char → Option (List Char)
  | _, [] => none
  | anch, c :: rest =>
    if anch && isDig c then
      let ds := takeDigits (c :: rest)
      if 3 ≤ ds.length && ds.length ≤ 5 && tailLineOk ((c :: rest).drop ds.length) then
        some ds
      else fb3Go false rest
    else fb3Go (c == '\n' || (anch && pySpace c)) rest

/-- The three-tier views lookup on the classified views screen
(lines 224-239). -/
def igViews (tv : List Char) : Option ℤ :=
  match pri1Go false tv with
  | some ds => instaParseNumL ds
  | none =>
    match pri2Go tv with
    | some ds => instaParseNumL ds
    | none =>
      match fb3Go true tv with
      | some ds => instaParseNumL ds
      | none => pure 0

/-- One labelled metric on the interactions screen (lines 213-220). -/
def igLabel (pat : List Char) (ti : List Char) : Option ℤ :=
  match labelNum pat ti with
  | some ds => instaParseNumL ds
  | none => pure 0

/-- Result of `process_instagram_photos` on two OCR texts: a metrics
record, the surfaced ambiguity reply (line 196), or an uncaught
exception. -/
inductive IgResult
  | ok (m : Metrics)
  | ambiguous
  | err
deriving DecidableEq, Repr

/-- Extraction after classification, in source order: likes, comments,
shares from the interactions text, then views from the views text. -/
def igBuild (tv ti : List Char) : IgResult :=
  match (do
    let l ← igLabel "likes".data ti
    let c ← igLabel "comments".data ti
    let s ← igLabel "shares".data ti
    let v ← igViews tv
    pure (Metrics.mk v l c s) : Option Metrics) with
  | some m => .ok m
  | none => .err

/-- `process_instagram_photos` (lines 177-241) on the two OCR texts in
arrival order: classify which screen is the views screen by the
priority heuristics, then extract. -/
def igExtract (t1 t2 : String) : IgResult :=
  if igA t1 then igBuild t1.data t2.data
  else if igA t2 then igBuild t2.data t1.data
  else if igB t1 then igBuild t2.data t1.data
  else if igB t2 then igBuild t1.data t2.data
  else .ambiguous

/-! ## The YouTube extractor (`process_youtube_csv`) -/

/-- CPython `int(str)` in base 10: optional surrounding whitespace,
optional sign, digits with single underscores between them.  `none`
models `ValueError`. -/
def pyIntOfList (cs0 : List Char) : Option ℤ :=
  let cs := cs0.dropWhile pySpace
  let p : Bool × List Char :=
    match cs with
    | [] => (false, [])
    | c :: r =>
      if c == '+' then (false, r)
      else if c == '-' then (true, r)
      else (false, c :: r)
  match parseUDigits p.2 with
  | some (v, _, r) =>
    if r.all pySpace then some (if p.1 then -(v : ℤ) else (v : ℤ)) else none
  | none => none

/-- `int(str)` on strings. -/
def pyIntOfString (s : String) : Option ℤ := pyIntOfList s.data

/-- A parsed CSV row as `csv.DictReader` delivers it: field name to
string value, unique keys. -/
abbrev Row := List (String × String)

/-- Python `row.get(k)` (`None` when the key is absent). -/
def rowGet (r : Row) (k : String) : Option String :=
  (r.find? (fun p => p.1 == k)).map (fun p => p.2)

/-- Python `k in row`. -/
def rowHas (r : Row) (k : String) : Bool := (r.find? (fun p => p.1 == k)).isSome

/-- The candidate content/title header names, in the source's priority
order (line 254). -/
def contentHeaders : List String := ["Video", "Content Title", "Content", ""]

/-- `next((h for h in content_headers if h in row), None)` (line 258). -/
def contentKeyOf (r : Row) : Option String :=
  contentHeaders.find? (fun h => rowHas r h)

/-- Whether a row is the aggregate row: `if content_key and
(row[content_key] == 'Total' or row[content_key] == 'All videos')`
(line 260).  Python truthiness makes the empty-string header candidate
falsy, so a row whose content key is `''` never matches. -/
def isAggRow (r : Row) : Bool :=
  match contentKeyOf r with
  | some k =>
    if k == "" then false
    else
      match rowGet r k with
      | some v => v == "Total" || v == "All videos"
      | none => false
  | none => false

/-- The first aggregate row (the loop with `break`, lines 256-267). -/
def findAggRow (rows : List Row) : Option Row := rows.find? isAggRow

/-- The comments field: `row.get('Comments added', row.get('Comments', '0'))`
reads `Comments added` when present, else `Comments`; `none` here means
both are absent (so the literal `'0'` default applies). -/
def commentsField (r : Row) : Option String :=
  match rowGet r "Comments added" with
  | some v => some v
  | none => rowGet r "Comments"

/-- The metric-extraction part of `process_youtube_csv` (lines
247-269): totals stay `0` when no aggregate row exists; otherwise each
field is read with default `'0'` and passed to `int`, whose
`ValueError` (modelled `none`) is not caught. -/
def processYoutubeCsv (rows : List Row) : Option Metrics :=
  match findAggRow rows with
  | none => some ⟨0, 0, 0, 0⟩
  | some r => do
    let l ← pyIntOfString ((rowGet r "Likes").getD "0")
    let c ← pyIntOfString ((commentsField r).getD "0")
    let v ← pyIntOfString ((rowGet r "Views").getD "0")
    let s ← pyIntOfString ((rowGet r "Shares").getD "0")
    pure ⟨v, l, c, s⟩

/-! ## The submission state machine (`on_message`, lines 60-102) -/

/-- The declared source format. -/
inductive Fmt
  | tiktok
  | instagram
  | youtube
deriving DecidableEq, Repr

/-- One thread's entry in `thread_state`: `{'type': ..., 'photos': [...]}`.
An artifact is identified here by its filename (the only attribute the
state machine inspects). -/
structure ConvState where
  fmt : Option Fmt
  photos : List String
deriving DecidableEq, Repr

/-- An inbound thread message: its text content and the filenames of
its attachments. -/
structure Msg where
  content : String
  attachments : List String
deriving DecidableEq, Repr

/-- Observable actions of one `on_message` call. -/
inductive Out
  | ack (f : Fmt)
  | mismatch
  | recvOne
  | dispatchTT (a : String)
  | dispatchIG (ps : List String)
  | dispatchYT (a : String)
deriving DecidableEq, Repr

/-- `str.lower()` on strings (ASCII). -/
def lowStr (s : String) : String := ⟨s.data.map lowChar⟩

/-- The keyword chain of the declaration handler (lines 69-78):
`tiktok`, then `instagram` or `insta`, then `youtube`, by substring
test on the lower-cased content. -/
def matchFmt (content : String) : Option Fmt :=
  let l := lowStr content
  if strIn l "tiktok" then some .tiktok
  else if strIn l "instagram" || strIn l "insta" then some .instagram
  else if strIn l "youtube" then some .youtube
  else none

/-- `attachment.filename.lower().endswith('.csv')` (line 86). -/
def endsCsv (filename : String) : Bool :=
  startsL (filename.data.map lowChar).reverse ".csv".data.reverse

/-- One `on_message` call for a thread message, acting on the thread's
entry of `thread_state` (`none` = absent).  The entry is created on
first contact; a text-only message runs the keyword chain
(unconditionally overwriting `state['type']` on a match); a message
with attachments is routed by the declared format, `del` of the entry
being modelled by returning `none`. -/
def step (st0 : Option ConvState) (m : Msg) : Option ConvState × List Out :=
  let st := st0.getD ⟨none, []⟩
  if m.content ≠ "" ∧ m.attachments = [] then
    match matchFmt m.content with
    | some f => (some ⟨some f, st.photos⟩, [.ack f])
    | none => (some st, [])
  else
    match m.attachments with
    | [] => (some st, [])
    | a :: _ =>
      match st.fmt with
      | none => (some st, [])
      | some .youtube =>
        if endsCsv a then (none, [.dispatchYT a])
        else (some st, [.mismatch])
      | some .tiktok =>
        let ps := st.photos ++ [a]
        if ps.length = 1 then (none, [.dispatchTT (ps.headD "")])
        else (some ⟨some .tiktok, ps⟩, [])
      | some .instagram =>
        let ps := st.photos ++ [a]
        if ps.length = 2 then (none, [.dispatchIG ps])
        else if ps.length < 2 then (some ⟨some .instagram, ps⟩, [.recvOne])
        else (some ⟨some .instagram, ps⟩, [])

/-- Run a sequence of messages from a given state. -/
def runFrom (st : Option ConvState) (ms : List Msg) : Option ConvState :=
  ms.foldl (fun s m => (step s m).1) st

/-- Run a sequence of messages for a fresh conversation. -/
def run (ms : List Msg) : Option ConvState := runFrom none ms

/-- Maximum number of artifacts the declared format requires (1 for
TikTok and YouTube, 2 for Instagram). -/
def maxArt : Option Fmt → ℕ
  | some .tiktok => 1
  | some .instagram => 2
  | some .youtube => 1
  | none => 0

/-- The claimed length invariant, as a decidable check. -/
def invLenB (st : Option ConvState) : Bool :=
  match st with
  | none => true
  | some s => s.photos.length ≤ maxArt s.fmt

/-- The strengthened inductive invariant of reachable states under
declaration discipline: an undeclared, TikTok or YouTube entry holds no
photos, an Instagram entry at most one. -/
def invS (st : Option ConvState) : Bool :=
  match st with
  | none => true
  | some s =>
    match s.fmt with
    | none => s.photos.isEmpty
    | some .tiktok => s.photos.isEmpty
    | some .youtube => s.photos.isEmpty
    | some .instagram => s.photos.length ≤ 1

/-- A message does not re-declare: it is not a recognized declaration
arriving while a format is already declared. -/
def goodB (st : Option ConvState) (m : Msg) : Bool :=
  !((m.content != "") && m.attachments.isEmpty &&
    (matchFmt m.content).isSome && ((st.getD ⟨none, []⟩).fmt).isSome)

/-- `runOk st ms`: no message of `ms` re-declares along the run. -/
def runOk : Option ConvState → List Msg → Bool
  | _, [] => true
  | st, m :: ms => goodB st m && runOk (step st m).1 ms

/-- Whether an Instagram dispatch is among the actions. -/
def hasIgDispatch (outs : List Out) : Bool :=
  outs.any (fun o => match o with | .dispatchIG _ => true | _ => false)

/-- An interactions text whose Likes value has 330 digits: its parse
overflows `float` to infinity, so `int(...)` raises `OverflowError`. -/
def igHugeLikes : String := "Likes " ++ ⟨List.replicate 330 '9'⟩

/-- A field that, when present, holds a valid base-10 int literal (so
Python's `int` does not raise on it, counting the `'0'` default for an
absent field). -/
def intOkB (o : Option String) : Bool := (pyIntOfString (o.getD "0")).isSome

end ClipBot

namespace ClipBot

/-- Membership survives `stripL`. -/
theorem mem_stripL {cs : List Char} {c : Char} (h : c ∈ stripL cs) : c ∈ cs := by
  unfold stripL at h
  rw [List.mem_reverse] at h
  have h2 := (List.dropWhile_sublist _).subset h
  rw [List.mem_reverse] at h2
  exact (List.dropWhile_sublist _).subset h2

/-- Membership survives the stray-period filter. -/
theorem mem_strayDots {cs : List Char} {c : Char} (h : c ∈ strayDots cs) : c ∈ cs := by
  induction cs with
  | nil => simp [strayDots] at h
  | cons a t ih =>
    simp only [strayDots] at h
    by_cases ha : a == '.'
    · rw [if_pos ha] at h
      by_cases hk : strayKeep t
      · rw [if_pos hk] at h
        rcases List.mem_cons.mp h with rfl | h2
        · exact List.mem_cons.mpr (Or.inl (eq_of_beq ha).symm)
        · exact List.mem_cons_of_mem a (ih h2)
      · rw [if_neg hk] at h
        exact List.mem_cons_of_mem a (ih h)
    · rw [if_neg ha] at h
      rcases List.mem_cons.mp h with rfl | h2
      · exact List.mem_cons_self c t
      · exact List.mem_cons_of_mem a (ih h2)

/-- Membership in the TikTok residue implies membership in the input. -/
theorem mem_tiktokResidue {cs : List Char} {c : Char}
    (h : c ∈ (tiktokResidue cs).1) : c ∈ cs := by
  have key : (tiktokResidue cs).1 = tiktokMunged cs ∨
      (tiktokResidue cs).1 = (tiktokMunged cs).dropLast := by
    unfold tiktokResidue
    split
    · right; rfl
    · right; rfl
    · left; rfl
  have chain : ∀ d, d ∈ tiktokMunged cs → d ∈ cs := fun d hd =>
    mem_stripL (List.mem_filter.mp (mem_strayDots hd)).1
  rcases key with hk | hk
  · exact chain c (hk ▸ h)
  · exact chain c ((List.dropLast_sublist _).subset (hk ▸ h))

/-- Floor of a nonnegative rational is nonnegative. -/
theorem qfloor_nonneg {q : ℚ} (h : 0 ≤ q) : 0 ≤ qfloor q := by
  unfold qfloor
  exact Int.fdiv_nonneg (Rat.num_nonneg.mpr h) (by positivity)

/-- Ties-to-even rounding of a nonnegative rational is nonnegative. -/
theorem rne_nonneg {x : ℚ} (h : 0 ≤ x) : 0 ≤ rne x := by
  have h0 := qfloor_nonneg h
  unfold rne
  split
  · exact h0
  · split
    · omega
    · split
      · exact h0
      · omega

/-- Powers of two are positive rationals. -/
theorem pow2z_pos (k : ℤ) : 0 < pow2z k := by
  unfold pow2z
  have h2 : ∀ n : ℕ, (0 : ℚ) < ((2 ^ n : ℕ) : ℚ) := fun n => by
    exact_mod_cast Nat.two_pow_pos n
  split
  · exact h2 _
  · exact inv_pos.mpr (h2 _)

/-- The rounded magnitude is nonnegative. -/
theorem roundMag_nonneg (q : ℚ) : 0 ≤ roundMag q := by
  unfold roundMag
  exact mul_nonneg
    (by exact_mod_cast rne_nonneg (div_nonneg (abs_nonneg q) (pow2z_pos _).le))
    (pow2z_pos _).le

/-- Rounding a nonnegative exact value to binary64 cannot produce a
negative finite value. -/
theorem roundDouble_nonneg {x : ℚ} (hx : 0 ≤ x) {p : ℚ}
    (h : roundDouble x = .finite p) : 0 ≤ p := by
  unfold roundDouble at h
  split at h
  · injection h with h2
    exact le_of_eq h2
  · split at h
    · split at h <;> exact absurd h (by simp)
    · rw [if_neg (not_lt.mpr hx)] at h
      injection h with h2
      rw [← h2]
      exact roundMag_nonneg x

/-- Powers of ten are nonnegative rationals. -/
theorem pow10z_nonneg (e : ℤ) : 0 ≤ pow10z e := by
  have h10 : ∀ n : ℕ, (0 : ℚ) ≤ pow10n n := fun n => by
    unfold pow10n; positivity
  unfold pow10z
  split
  · exact h10 _
  · exact inv_nonneg.mpr (h10 _)

/-- The exact value of a parsed (unsigned) numeric literal is
nonnegative. -/
theorem parseNumericQ_nonneg {cs : List Char} {q : ℚ} {r : List Char}
    (h : parseNumericQ cs = some (q, r)) : 0 ≤ q := by
  have h10 : ∀ n : ℕ, (0 : ℚ) ≤ pow10n n := fun n => by
    unfold pow10n; positivity
  unfold parseNumericQ at h
  split at h
  · split at h
    · split at h
      · simp only [Option.some.injEq, Prod.mk.injEq] at h
        obtain ⟨rfl, -⟩ := h
        exact mul_nonneg (div_nonneg (by positivity) (h10 _)) (pow10z_nonneg _)
      · exact absurd h (by simp)
    · exact absurd h (by simp)
  · split at h
    · split at h
      · split at h
        · split at h
          · simp only [Option.some.injEq, Prod.mk.injEq] at h
            obtain ⟨rfl, -⟩ := h
            exact mul_nonneg
              (add_nonneg (by positivity) (div_nonneg (by positivity) (h10 _)))
              (pow10z_nonneg _)
          · exact absurd h (by simp)
        · split at h
          · simp only [Option.some.injEq, Prod.mk.injEq] at h
            obtain ⟨rfl, -⟩ := h
            exact mul_nonneg (by positivity) (pow10z_nonneg _)
          · exact absurd h (by simp)
      · split at h
        · simp only [Option.some.injEq, Prod.mk.injEq] at h
          obtain ⟨rfl, -⟩ := h
          exact mul_nonneg (by positivity) (pow10z_nonneg _)
        · exact absurd h (by simp)
    · exact absurd h (by simp)

/-- A finite float parsed without a minus sign is nonnegative. -/
theorem pyFloatSigned_false_nonneg {cs1 : List Char} {q : ℚ}
    (h : pyFloatSigned false cs1 = some (.finite q)) : 0 ≤ q := by
  unfold pyFloatSigned at h
  split at h
  · exact absurd h (by simp)
  · split at h
    · exact absurd h (by simp)
    · split at h
      · exact absurd h (by simp)
      · split at h
        · next q0 r0 heq =>
          split at h
          · injection h with h2
            rw [if_neg (by simp : ¬(false = true))] at h2
            exact roundDouble_nonneg (parseNumericQ_nonneg heq) h2
          · exact absurd h (by simp)
        · exact absurd h (by simp)

/-- A finite value of `float(s)` on a string with no minus sign is
nonnegative. -/
theorem pyFloat_nonneg {cs : List Char} (hm : ∀ c ∈ cs, c ≠ '-') {q : ℚ}
    (h : pyFloatOfList cs = some (.finite q)) : 0 ≤ q := by
  unfold pyFloatOfList at h
  split at h
  · exact pyFloatSigned_false_nonneg h
  · next r heq =>
    exact absurd rfl
      (hm '-' ((List.dropWhile_sublist _).subset
        (by rw [heq]; exact List.mem_cons_self '-' r)))
  · exact pyFloatSigned_false_nonneg h

/-- Truncation toward zero preserves nonnegativity. -/
theorem ratTrunc_nonneg {q : ℚ} (h : 0 ≤ q) : 0 ≤ ratTrunc q := by
  unfold ratTrunc
  rw [if_neg (not_lt.mpr h)]
  exact qfloor_nonneg h

/-- A finite product with a nonnegative int multiplier stays
nonnegative. -/
theorem pyMulN_nonneg {q : ℚ} (hq : 0 ≤ q) (m : ℕ) {p : ℚ}
    (h : pyMulN (.finite q) m = .finite p) : 0 ≤ p := by
  simp only [pyMulN] at h
  split at h
  · injection h with h2
    exact h2 ▸ hq
  · exact roundDouble_nonneg (mul_nonneg hq (by positivity)) h

/-- The TikTok normalizer on a string without a minus sign either
raises (on an overflowing residue) or returns a nonnegative integer. -/
theorem tiktokParseNumL_nonneg (cs : List Char) (hm : ∀ c ∈ cs, c ≠ '-') :
    tiktokParseNumL cs = none ∨ ∃ n, tiktokParseNumL cs = some n ∧ 0 ≤ n := by
  have hres : ∀ c ∈ (tiktokResidue cs).1, c ≠ '-' :=
    fun c hc => hm c (mem_tiktokResidue hc)
  cases hp : pyFloatOfList (tiktokResidue cs).1 with
  | none =>
    right
    exact ⟨0, by simp only [tiktokParseNumL, hp], le_refl 0⟩
  | some pf =>
    cases pf with
    | nan =>
      right
      exact ⟨0, by simp only [tiktokParseNumL, hp], le_refl 0⟩
    | inf => left; simp only [tiktokParseNumL, hp]
    | ninf => left; simp only [tiktokParseNumL, hp]
    | finite q =>
      have hq : 0 ≤ q := pyFloat_nonneg hres hp
      cases hmul : pyMulN (.finite q) (tiktokResidue cs).2 with
      | finite p =>
        right
        exact ⟨ratTrunc p, by simp only [tiktokParseNumL, hp, hmul],
          ratTrunc_nonneg (pyMulN_nonneg hq _ hmul)⟩
      | nan =>
        right
        exact ⟨0, by simp only [tiktokParseNumL, hp, hmul], le_refl 0⟩
      | inf => left; simp only [tiktokParseNumL, hp, hmul]
      | ninf => left; simp only [tiktokParseNumL, hp, hmul]

/-- C1 as amended: the TikTok `parse_number` always terminates; it
returns `0` on every unparseable residue (e.g. `""`, `"abc"`, `"--"`);
and on any input without a minus sign it either returns a nonnegative
integer or raises `OverflowError` on an infinite residue.  (It can
return negative values and raise; see the counterexample.) -/
theorem tiktok_parse_number_amended :
    (tiktokParseNumber "" = some 0 ∧ tiktokParseNumber "abc" = some 0 ∧
      tiktokParseNumber "--" = some 0) ∧
    ∀ s : String, (∀ c ∈ s.data, c ≠ '-') →
      tiktokParseNumber s = none ∨ ∃ n, tiktokParseNumber s = some n ∧ 0 ≤ n :=
  ⟨by decide, fun s h => tiktokParseNumL_nonneg s.data h⟩

/-- Witness for `tiktok_parse_number_amended` at the input `"abc"`. -/
theorem tiktok_parse_number_amended_witness :
    tiktokParseNumber "abc" = none ∨
      ∃ n, tiktokParseNumber "abc" = some n ∧ 0 ≤ n :=
  tiktok_parse_number_amended.2 "abc" (by decide)

/-- `dropWhile` is the identity when no element satisfies the
predicate. -/
theorem dropWhile_eq_self_of (p : Char → Bool) (cs : List Char)
    (h : ∀ c ∈ cs, p c = false) : cs.dropWhile p = cs := by
  cases cs with
  | nil => rfl
  | cons a t =>
    rw [List.dropWhile_cons, h a (List.mem_cons_self a t)]
    simp

/-- `strip` is the identity on whitespace-free strings. -/
theorem stripL_eq_self (cs : List Char) (h : ∀ c ∈ cs, pySpace c = false) :
    stripL cs = cs := by
  unfold stripL
  rw [dropWhile_eq_self_of _ _ h]
  rw [dropWhile_eq_self_of _ _ (fun c hc => h c (List.mem_reverse.mp hc))]
  exact List.reverse_reverse cs

/-- The stray-period filter is the identity on period-free strings. -/
theorem strayDots_eq_self (cs : List Char) (h : '.' ∉ cs) : strayDots cs = cs := by
  induction cs with
  | nil => rfl
  | cons a t ih =>
    have ha : ¬(a == '.') = true := by
      intro e
      rw [eq_of_beq e] at h
      exact h (List.mem_cons_self '.' t)
    simp only [strayDots, if_neg ha]
    rw [ih (fun hb => h (List.mem_cons_of_mem a hb))]

/-- After dropping commas from a digits-and-commas string, only digits
remain. -/
theorem filterComma_digits (cs : List Char)
    (h : ∀ c ∈ cs, isDig c = true ∨ c = ',') :
    ∀ c ∈ cs.filter (fun c => c != ','), isDig c = true := by
  intro c hc
  obtain ⟨hmem, hne⟩ := List.mem_filter.mp hc
  rcases h c hmem with hd | rfl
  · exact hd
  · simp at hne

/-- A digit is not Python whitespace. -/
theorem isDig_not_space {c : Char} (h : isDig c = true) : pySpace c = false := by
  simp only [isDig, Bool.and_eq_true, decide_eq_true_eq] at h
  simp only [pySpace, Bool.or_eq_false_iff, Bool.and_eq_false_iff,
    beq_eq_false_iff_ne, ne_eq, decide_eq_false_iff_not, not_le]
  omega

/-- A digit is not a period. -/
theorem isDig_ne_dot {c : Char} (h : isDig c = true) : c ≠ '.' := by
  intro e
  subst e
  exact absurd h (by decide)

/-- When the munged token does not end in `K` or `M`, the residue is
the munged token itself with multiplier 1. -/
theorem tiktokResidue_default {cs : List Char}
    (h1 : (tiktokMunged cs).getLast? = none ∨
      ∃ c, (tiktokMunged cs).getLast? = some c ∧ c ≠ 'K' ∧ c ≠ 'M') :
    tiktokResidue cs = (tiktokMunged cs, 1) := by
  unfold tiktokResidue
  rcases h1 with h1 | ⟨c, h1, hK, hM⟩
  · rw [h1]
  · rw [h1]
    split
    · next heq => injection heq with h2; exact absurd h2 hK
    · next heq => injection heq with h2; exact absurd h2 hM
    · rfl

/-- C5 as amended: the two extractors define separate local
normalizers that agree on plain digits-and-commas tokens (both strip
commas and parse the digits), but disagree on magnitude suffixes —
only the TikTok one applies `K`/`M` (see the counterexample). -/
theorem normalizers_agree_amended :
    ∀ s : String, (∀ c ∈ s.data, isDig c = true ∨ c = ',') →
      tiktokParseNumber s = instaParseNumber s := by
  intro s h
  have hns : ∀ c ∈ s.data, pySpace c = false := by
    intro c hc
    rcases h c hc with hd | rfl
    · exact isDig_not_space hd
    · decide
  have h2 := filterComma_digits s.data h
  generalize hL : s.data.filter (fun c => c != ',') = L at h2
  have hmg : tiktokMunged s.data = L := by
    unfold tiktokMunged
    rw [stripL_eq_self _ hns, hL]
    exact strayDots_eq_self _ (fun hdot => isDig_ne_dot (h2 _ hdot) rfl)
  have hdisj : (tiktokMunged s.data).getLast? = none ∨
      ∃ c, (tiktokMunged s.data).getLast? = some c ∧ c ≠ 'K' ∧ c ≠ 'M' := by
    rw [hmg]
    cases hl : L.getLast? with
    | none => exact Or.inl rfl
    | some c =>
      have hcd : isDig c = true := h2 c (List.mem_of_getLast?_eq_some hl)
      exact Or.inr ⟨c, rfl, fun e => absurd hcd (by rw [e]; decide),
        fun e => absurd hcd (by rw [e]; decide)⟩
  have hres2 : tiktokResidue s.data = (L, 1) := by
    rw [tiktokResidue_default hdisj, hmg]
  have hjunk : (L.reverse.dropWhile (fun c => !(isDig c || c == '.'))).reverse = L := by
    rw [dropWhile_eq_self_of _ _ (fun c hc => by
      rw [h2 c (List.mem_reverse.mp hc)]
      rfl)]
    exact List.reverse_reverse L
  unfold tiktokParseNumber instaParseNumber tiktokParseNumL instaParseNumL
  dsimp only
  rw [hres2, stripL_eq_self _ hns, hL, hjunk]
  dsimp only
  cases hp : pyFloatOfList L with
  | none => rfl
  | some pf => cases pf <;> rfl

/-- Witness for `normalizers_agree_amended` at `"1,234"`. -/
theorem normalizers_agree_amended_witness :
    tiktokParseNumber "1,234" = instaParseNumber "1,234" :=
  normalizers_agree_amended "1,234" (by decide)

/-- C8: on the end-to-end example OCR text — `Post views ... Profile
views` followed by `12.3K`, `Likes ... Comments` followed by `450` and
`67`, and `Shares` followed by `12` — the TikTok extractor returns
views 12300, likes 450, comments 67, shares 12. -/
theorem tiktok_end_to_end_example :
    tiktokProcess "Post views Profile views\n12.3K\nLikes Comments\n450\t67\nShares\n12\n" =
      some ⟨12300, 450, 67, 12⟩ := by
  decide

/-- C1 counterexample: the TikTok `parse_number` is not nonnegative-valued
and not exception-free over arbitrary strings — on `"-5"` it returns the
negative integer `-5`, and on `"inf"` the uncaught `OverflowError` from
`int(float('inf'))` escapes (modelled `none`). -/
theorem tiktok_parse_number_claim_cex :
    tiktokParseNumber "-5" = some (-5) ∧ (-5 : ℤ) < 0 ∧
      tiktokParseNumber "inf" = none := by
  decide

/-- C2 counterexample: a second recognized declaration changes the
already-set format — after declaring `tiktok` the conversation's format
is TikTok, and a later `instagram` declaration overwrites it. -/
theorem format_redeclaration_cex :
    run [⟨"tiktok", []⟩] = some ⟨some .tiktok, []⟩ ∧
      run [⟨"tiktok", []⟩, ⟨"instagram", []⟩] = some ⟨some .instagram, []⟩ ∧
      Fmt.instagram ≠ Fmt.tiktok := by
  decide

/-- C3 counterexample: with the aggregate row found and a non-numeric
`Likes` value, `int(row.get('Likes', '0'))` raises an uncaught
`ValueError` (modelled `none`) instead of defaulting the field to 0. -/
theorem youtube_nonnumeric_field_cex :
    findAggRow [[("Video", "Total"), ("Likes", "abc")]] =
        some [("Video", "Total"), ("Likes", "abc")] ∧
      processYoutubeCsv [[("Video", "Total"), ("Likes", "abc")]] = none := by
  decide

/-- C4: Instagram extraction is order-dependent — when both texts match
the views heuristic, the first is classified as the views screen, so
swapping the pair swaps which number becomes the views count. -/
theorem instagram_order_dependent :
    igExtract "200 Views" "300 Views" = .ok ⟨200, 0, 0, 0⟩ ∧
      igExtract "300 Views" "200 Views" = .ok ⟨300, 0, 0, 0⟩ ∧
      igExtract "200 Views" "300 Views" ≠ igExtract "300 Views" "200 Views" := by
  decide

/-- C5 counterexample: the two extractors do not share one normalizer —
on `"2.5K"` the TikTok `parse_number` applies the K multiplier (2500)
while the Instagram `parse_number` drops the suffix as trailing junk
and truncates (2). -/
theorem normalizers_differ_cex :
    tiktokParseNumber "2.5K" = some 2500 ∧
      instaParseNumber "2.5K" = some 2 ∧
      tiktokParseNumber "2.5K" ≠ instaParseNumber "2.5K" := by
  decide

/-- C6 counterexample: the classification can succeed (the first text
matches the views heuristic) while extraction still produces no
metrics record — a 330-digit Likes value overflows `float`, so
`int(...)` raises and neither `Metrics` nor the ambiguity reply is
produced. -/
theorem instagram_overflow_cex :
    igA "500 Views" = true ∧
      igExtract "500 Views" igHugeLikes = .err := by
  decide

/-- C3 as amended: when the aggregate row is found and every present
metric field is a valid integer literal, extraction succeeds and each
missing field yields 0 for its metric; a present non-integer value, by
contrast, raises (see the counterexample). -/
theorem youtube_missing_defaults_amended (rows : List Row) (r : Row)
    (hf : findAggRow rows = some r)
    (hl : intOkB (rowGet r "Likes") = true)
    (hc : intOkB (commentsField r) = true)
    (hv : intOkB (rowGet r "Views") = true)
    (hs : intOkB (rowGet r "Shares") = true) :
    ∃ m : Metrics, processYoutubeCsv rows = some m ∧
      (rowGet r "Likes" = none → m.likes = 0) ∧
      (commentsField r = none → m.comments = 0) ∧
      (rowGet r "Views" = none → m.views = 0) ∧
      (rowGet r "Shares" = none → m.shares = 0) := by
  have hzero : pyIntOfString "0" = some 0 := by decide
  unfold intOkB at hl hc hv hs
  obtain ⟨l, hl'⟩ := Option.isSome_iff_exists.mp hl
  obtain ⟨c, hc'⟩ := Option.isSome_iff_exists.mp hc
  obtain ⟨v, hv'⟩ := Option.isSome_iff_exists.mp hv
  obtain ⟨s, hs'⟩ := Option.isSome_iff_exists.mp hs
  refine ⟨⟨v, l, c, s⟩, ?_, ?_, ?_, ?_, ?_⟩
  · unfold processYoutubeCsv
    rw [hf]
    simp [hl', hc', hv', hs']
  · intro h0
    rw [h0] at hl'
    rw [Option.getD_none, hzero] at hl'
    simpa using hl'.symm
  · intro h0
    rw [h0] at hc'
    rw [Option.getD_none, hzero] at hc'
    simpa using hc'.symm
  · intro h0
    rw [h0] at hv'
    rw [Option.getD_none, hzero] at hv'
    simpa using hv'.symm
  · intro h0
    rw [h0] at hs'
    rw [Option.getD_none, hzero] at hs'
    simpa using hs'.symm

/-- Witness for `youtube_missing_defaults_amended`: an aggregate row
with every metric field absent. -/
theorem youtube_missing_defaults_witness :
    ∃ m : Metrics, processYoutubeCsv [[("Video", "Total")]] = some m ∧
      (rowGet [("Video", "Total")] "Likes" = none → m.likes = 0) ∧
      (commentsField [("Video", "Total")] = none → m.comments = 0) ∧
      (rowGet [("Video", "Total")] "Views" = none → m.views = 0) ∧
      (rowGet [("Video", "Total")] "Shares" = none → m.shares = 0) :=
  youtube_missing_defaults_amended [[("Video", "Total")]] [("Video", "Total")]
    (by decide) (by decide) (by decide) (by decide) (by decide)

/-- Classified extraction never yields the ambiguity reply. -/
theorem igBuild_ne_ambiguous (tv ti : List Char) : igBuild tv ti ≠ .ambiguous := by
  unfold igBuild
  split <;> simp

/-- C6 as amended: the extraction surfaces the ambiguity failure
exactly when neither text matches the Views-adjacent-digits heuristic
and neither satisfies the Likes-and-Comments-without-Views fallback;
in every other case it either produces a `Metrics` record or raises on
a float-overflowing numeric capture (see the counterexample). -/
theorem instagram_ambiguous_iff (t1 t2 : String) :
    igExtract t1 t2 = .ambiguous ↔
      igA t1 = false ∧ igA t2 = false ∧ igB t1 = false ∧ igB t2 = false := by
  unfold igExtract
  cases h1 : igA t1 <;> cases h2 : igA t2 <;> cases h3 : igB t1 <;> cases h4 : igB t2 <;>
    simp [h1, h2, h3, h4, igBuild_ne_ambiguous]

/-- Witness for `instagram_ambiguous_iff`: two texts with no Views
anchor and no Likes-plus-Comments fallback are reported ambiguous. -/
theorem instagram_ambiguous_iff_witness :
    igExtract "abc" "def" = .ambiguous :=
  (instagram_ambiguous_iff "abc" "def").mpr (by decide)

/-- C2 as amended: a recognized declaration always sets the
conversation's format to the matched keyword's format, overwriting any
previously declared format and keeping the stored photos — the format
is that of the most recent recognized declaration. -/
theorem declaration_overwrites (st : Option ConvState) (m : Msg) (f : Fmt)
    (hc : m.content ≠ "") (ha : m.attachments = [])
    (hm : matchFmt m.content = some f) :
    (step st m).1 = some ⟨some f, (st.getD ⟨none, []⟩).photos⟩ := by
  unfold step
  rw [if_pos ⟨hc, ha⟩, hm]

/-- Witness for `declaration_overwrites`: a TikTok conversation with a
stored photo, re-declared as Instagram. -/
theorem declaration_overwrites_witness :
    (step (some ⟨some Fmt.tiktok, ["p.jpg"]⟩) ⟨"now instagram", []⟩).1 =
      some ⟨some Fmt.instagram, ["p.jpg"]⟩ :=
  declaration_overwrites (some ⟨some Fmt.tiktok, ["p.jpg"]⟩) ⟨"now instagram", []⟩
    Fmt.instagram (by decide) rfl (by decide)

/-- C9: for a YouTube-declared conversation, an attachment whose
filename does not end in `.csv` leaves the state entry exactly as it
was — format retained, no photo appended, no reclaim — and only the
format-mismatch notice is emitted. -/
theorem youtube_noncsv_frame (ph : List String) (a : String) (att : List String)
    (content : String) (h : endsCsv a = false) :
    step (some ⟨some .youtube, ph⟩) ⟨content, a :: att⟩ =
      (some ⟨some .youtube, ph⟩, [.mismatch]) := by
  unfold step
  rw [if_neg (by rintro ⟨-, h2⟩; exact List.cons_ne_nil a att h2)]
  simp [h]

/-- Witness for `youtube_noncsv_frame` at a concrete non-tabular
attachment. -/
theorem youtube_noncsv_frame_witness :
    step (some ⟨some .youtube, []⟩) ⟨"", ["notes.txt"]⟩ =
      (some ⟨some .youtube, []⟩, [.mismatch]) :=
  youtube_noncsv_frame [] "notes.txt" [] "" (by decide)

/-- C10: the declaration keyword chain resolves multi-keyword messages
by fixed priority — `tiktok` first, then `instagram`/`insta`, then
`youtube` — via substring tests on the lower-cased content. -/
theorem keyword_priority (s : String) :
    (strIn (lowStr s) "tiktok" = true → matchFmt s = some .tiktok) ∧
    (strIn (lowStr s) "tiktok" = false →
      strIn (lowStr s) "instagram" = true ∨ strIn (lowStr s) "insta" = true →
      matchFmt s = some .instagram) ∧
    (strIn (lowStr s) "tiktok" = false → strIn (lowStr s) "instagram" = false →
      strIn (lowStr s) "insta" = false → strIn (lowStr s) "youtube" = true →
      matchFmt s = some .youtube) := by
  unfold matchFmt
  refine ⟨fun h1 => ?_, fun h1 h2 => ?_, fun h1 h2 h3 h4 => ?_⟩
  · simp [h1]
  · rcases h2 with h2 | h2 <;> simp [h1, h2]
  · simp [h1, h2, h3, h4]

/-- Witness for `keyword_priority`: a message naming all three
platforms is resolved as TikTok. -/
theorem keyword_priority_witness :
    matchFmt "I post on YouTube, Instagram and TikTok" = some .tiktok :=
  (keyword_priority "I post on YouTube, Instagram and TikTok").1 (by decide)

/-- The strengthened invariant is preserved by any step that does not
re-declare over an already-declared format. -/
theorem invS_step (st : Option ConvState) (m : Msg)
    (hi : invS st = true) (hg : goodB st m = true) :
    invS (step st m).1 = true := by
  obtain ⟨content, atts⟩ := m
  cases atts with
  | cons a t =>
    have hcond : ¬(content ≠ "" ∧ (a :: t : List String) = []) := by
      rintro ⟨-, h2⟩; exact List.cons_ne_nil a t h2
    cases st with
    | none => simp [step, hcond, invS]
    | some s =>
      obtain ⟨fmt, photos⟩ := s
      cases fmt with
      | none => simpa [step, hcond] using hi
      | some f =>
        cases f with
        | youtube =>
          by_cases hcsv : endsCsv a = true
          · simp [step, hcond, hcsv, invS]
          · simp only [Bool.not_eq_true] at hcsv
            simpa [step, hcond, hcsv] using hi
        | tiktok =>
          have hemp : photos = [] := List.isEmpty_iff.mp (by simpa [invS] using hi)
          subst hemp
          simp [step, hcond, invS]
        | instagram =>
          have hlen : photos.length ≤ 1 := by simpa [invS] using hi
          by_cases h2 : photos.length = 1
          · simp [step, hcond, h2, invS]
          · have h0 : photos = [] := List.length_eq_zero.mp (by omega)
            subst h0
            simp [step, hcond, invS]
  | nil =>
    by_cases hc1 : content = ""
    · subst hc1
      cases st with
      | none => simp [step, invS]
      | some s => simpa [step] using hi
    · cases hm : matchFmt content with
      | none =>
        cases st with
        | none => simp [step, hc1, hm, invS]
        | some s => simpa [step, hc1, hm] using hi
      | some f =>
        have hfmt : (st.getD ⟨none, []⟩).fmt = none := by
          cases hfg : (st.getD ⟨none, []⟩).fmt with
          | none => rfl
          | some g => exfalso; simp [goodB, hm, hfg, hc1, bne_iff_ne] at hg
        cases st with
        | none => cases f <;> simp [step, hc1, hm, invS]
        | some s =>
          obtain ⟨fmt, photos⟩ := s
          simp only [Option.getD_some] at hfmt
          subst hfmt
          have hemp : photos = [] := List.isEmpty_iff.mp (by simpa [invS] using hi)
          subst hemp
          cases f <;> simp [step, hc1, hm, invS]
/-- The strengthened invariant holds along any run without
re-declaration. -/
theorem invS_runFrom (ms : List Msg) (st : Option ConvState)
    (hi : invS st = true) (hok : runOk st ms = true) :
    invS (runFrom st ms) = true := by
  induction ms generalizing st with
  | nil => simpa [runFrom] using hi
  | cons m ms ih =>
    rw [runOk, Bool.and_eq_true] at hok
    have h1 := invS_step st m hi hok.1
    simpa [runFrom] using ih (step st m).1 h1 hok.2

/-- The strengthened invariant implies the claimed length bound. -/
theorem invS_le (st : Option ConvState) (h : invS st = true) :
    invLenB st = true := by
  cases st with
  | none => rfl
  | some s =>
    obtain ⟨fmt, photos⟩ := s
    cases fmt with
    | none => simp_all [invS, invLenB, maxArt, List.isEmpty_iff]
    | some f => cases f <;> simp_all [invS, invLenB, maxArt, List.isEmpty_iff] <;> omega

/-- An Instagram dispatch happens exactly on an artifact arrival for an
Instagram-declared conversation holding exactly one stored photo. -/
theorem ig_dispatch_iff (st : Option ConvState) (m : Msg) :
    hasIgDispatch (step st m).2 = true ↔
      m.attachments ≠ [] ∧ (st.getD ⟨none, []⟩).fmt = some .instagram ∧
        (st.getD ⟨none, []⟩).photos.length = 1 := by
  obtain ⟨content, atts⟩ := m
  cases atts with
  | nil =>
    by_cases hc1 : content = ""
    · subst hc1
      simp [step, hasIgDispatch]
    · cases hm : matchFmt content with
      | none => simp [step, hc1, hm, hasIgDispatch]
      | some f => simp [step, hc1, hm, hasIgDispatch]
  | cons a t =>
    have hcond : ¬(content ≠ "" ∧ (a :: t : List String) = []) := by
      rintro ⟨-, h2⟩; exact List.cons_ne_nil a t h2
    cases hf : (st.getD ⟨none, []⟩).fmt with
    | none => simp [step, hcond, hasIgDispatch, hf]
    | some f =>
      cases f with
      | youtube =>
        by_cases hcsv : endsCsv a = true
        · simp [step, hcond, hf, hcsv, hasIgDispatch]
        · simp only [Bool.not_eq_true] at hcsv
          simp [step, hcond, hf, hcsv, hasIgDispatch]
      | tiktok =>
        by_cases h1 : (st.getD ⟨none, []⟩).photos = []
        · simp [step, hcond, hf, h1, hasIgDispatch]
        · simp [step, hcond, hf, h1, hasIgDispatch]
      | instagram =>
        by_cases h2 : (st.getD ⟨none, []⟩).photos.length = 1
        · have hc2 : ((st.getD ⟨none, []⟩).photos ++ [a]).length = 2 := by
            simp [List.length_append, h2]
          simp [step, hcond, hf, hc2, h2, hasIgDispatch]
        · have hc2 : ¬((st.getD ⟨none, []⟩).photos ++ [a]).length = 2 := by
            simp [List.length_append]
            omega
          simp [step, hcond, hf, hc2, h2, hasIgDispatch]
          split <;> simp

/-- C7 as amended: provided no message re-declares a format while one
is pending, the artifact list never exceeds the declared format's
maximum (1 for TikTok, 2 for Instagram); an Instagram conversation
dispatches exactly when the artifact bringing the count to 2 arrives —
never after one; and because dispatch removes the entry synchronously,
a third artifact event lands in a fresh, empty lifecycle. -/
theorem artifact_invariant_amended :
    (∀ ms : List Msg, runOk none ms = true → invLenB (run ms) = true) ∧
    (∀ (st : Option ConvState) (m : Msg),
      hasIgDispatch (step st m).2 = true ↔
        m.attachments ≠ [] ∧ (st.getD ⟨none, []⟩).fmt = some .instagram ∧
          (st.getD ⟨none, []⟩).photos.length = 1) ∧
    run [⟨"instagram", []⟩, ⟨"", ["a.jpg"]⟩, ⟨"", ["b.jpg"]⟩] = none ∧
    run [⟨"instagram", []⟩, ⟨"", ["a.jpg"]⟩, ⟨"", ["b.jpg"]⟩, ⟨"", ["c.jpg"]⟩] =
      some ⟨none, []⟩ :=
  ⟨fun ms h => invS_le _ (invS_runFrom ms none rfl h), ig_dispatch_iff,
    by decide, by decide⟩

/-- Witness for `artifact_invariant_amended` on a concrete
well-behaved run. -/
theorem artifact_invariant_amended_witness :
    invLenB (run [⟨"instagram", []⟩, ⟨"", ["a.jpg"]⟩]) = true :=
  artifact_invariant_amended.1 [⟨"instagram", []⟩, ⟨"", ["a.jpg"]⟩] (by decide)

/-- C7 counterexample: after `instagram` is declared and one photo
received, re-declaring `tiktok` keeps the stored photo; two further
photos are appended without ever dispatching, so a TikTok conversation
holds 3 artifacts — above the claimed maximum of 1. -/
theorem artifact_invariant_cex :
    run [⟨"instagram", []⟩, ⟨"", ["a.jpg"]⟩, ⟨"tiktok", []⟩, ⟨"", ["b.jpg"]⟩,
        ⟨"", ["c.jpg"]⟩] =
      some ⟨some .tiktok, ["a.jpg", "b.jpg", "c.jpg"]⟩ ∧
      ¬(3 ≤ maxArt (some Fmt.tiktok)) := by
  decide

end ClipBot

